import Mathlib

/-!
Shallow embedding of the core of `auto-gen-playlist` (a last.fm scrobble
aggregator and Spotify playlist generator) together with proofs about it.

The embedded functions mirror, definition by definition, the Python source:
* `auto_gen_playlist/lastfm/misc.py`  — `bisect_left_with_descending`
* `auto_gen_playlist/lastfm/core.py`  — `get_user_track_counter`
* `auto_gen_playlist/requests.py`     — `_fetch`, `fetch_all`, `fetch_one`
* `auto_gen_playlist/lastfm/api.py`   — `extract_tracks`,
  `extract_tracks_total_pages`, `fetch_tracks`, `fetch_tracks_all`,
  `get_user_history`
* `auto_gen_playlist/spotify/api.py`  — `select_proper_track`, `detect_track`

Machine-level details that do not affect the verified properties are
modelled as follows: Python ints are `Int`/`Nat`; `str.casefold` is
modelled as lower-casing; raised exceptions are `Except` values; the
filesystem (the per-user JSON cache file) is explicit state; network
responses are supplied by oracles (one outcome per attempt index).
-/

namespace AGP

/-! ## Data model: listen events (lastfm side) -/

/-- One cached/normalized scrobble as used by `get_user_track_counter`:
`track["name"]`, `track["artist"]["name"]`, `track["album"]["#text"]`,
`int(track["date"]["uts"])`. -/
structure Track where
  name : String
  artistName : String
  albumText : String
  uts : Int
deriving DecidableEq, Repr

/-- The frozen dataclass `Song(title, artist, album)` from
`auto_gen_playlist/lastfm/core.py`. -/
structure Song where
  title : String
  artist : String
  album : String
deriving DecidableEq, Repr

/-- Building the `Song` key for one track inside the loop of
`get_user_track_counter`: the album field is replaced by `""` when
`ignore_album` is set. -/
def trackSong (ignoreAlbum : Bool) (t : Track) : Song :=
  ⟨t.name, t.artistName, if ignoreAlbum then "" else t.albumText⟩

/-! ## `bisect_left_with_descending` (`lastfm/misc.py`)

The Python function takes a sequence, a bound `x`, optional `lo`/`hi`
(defaulting to `0`/`len(a)`) and an optional key.  The call sites always
pass a key that extracts `int(track["date"]["uts"])`; we embed the loop
on the key-mapped list of integers, which probes exactly the same values
in the same order. -/

/-- The `while lo < hi` loop of `bisect_left_with_descending`:
`mid = (lo + hi) // 2`; if `a[mid] < x` then `hi = mid` else
`lo = mid + 1`; returns `lo`. -/
def bisectAux (l : List Int) (x : Int) (lo hi : Nat) : Nat :=
  if h : lo < hi then
    let mid := (lo + hi) / 2
    if l.getD mid 0 < x then bisectAux l x lo mid
    else bisectAux l x (mid + 1) hi
  else lo
termination_by hi - lo
decreasing_by
  · have h1 : lo ≤ (lo + hi) / 2 := (Nat.le_div_iff_mul_le (by norm_num)).mpr (by omega)
    have h2 : (lo + hi) / 2 < hi := (Nat.div_lt_iff_lt_mul (by norm_num)).mpr (by omega)
    omega
  · have h1 : lo ≤ (lo + hi) / 2 := (Nat.le_div_iff_mul_le (by norm_num)).mpr (by omega)
    omega

/-- `bisect_left_with_descending(a, x)` with default `lo = 0`,
`hi = len(a)`. -/
def bisect_left_with_descending (l : List Int) (x : Int) : Nat :=
  bisectAux l x 0 l.length

/-- The specification's description of the boundary index: the leftmost
index whose value is `< x` (the length of the list when there is none).
This definition follows the spec's words and is used only to compare the
binary search against a linear scan. -/
def leftmostLt (l : List Int) (x : Int) : Nat :=
  match l with
  | [] => 0
  | a :: t => if a < x then 0 else leftmostLt t x + 1

/-! ## `get_user_track_counter` (`lastfm/core.py`)

The Python coroutine first obtains the cached history via
`get_user_history`; here the history is passed in directly (the cache
layer is modelled separately below).  `since`/`until` are datetimes in
the source; their only use is `.timestamp()`, so they are modelled as
optional integers.  The returned `Counter` is modelled as the function
mapping each `Song` to its multiplicity in the scanned slice. -/

def get_user_track_counter (tracks : List Track) (since? until? : Option Int)
    (ignoreAlbum : Bool) : Song → Nat :=
  let sinceTs : Int := since?.getD 0
  let untilTs : Int := until?.getD 2220000000
  let sinceIdx := bisect_left_with_descending (tracks.map fun t => t.uts) sinceTs
  let untilIdx := bisect_left_with_descending (tracks.map fun t => t.uts) untilTs
  let res := ((tracks.take sinceIdx).drop untilIdx).map (trackSong ignoreAlbum)
  fun g => res.count g

/-! ## The last.fm API envelope (`lastfm/api.py`)

`resp.json()` is modelled structurally: each optional key of the
envelope is an `Option`.  A raw track entry carries an abstract payload
plus the one flag `extract_tracks` looks at (`@attr.nowplaying ==
"true"`). -/

/-- One entry of `res["recenttracks"]["track"]`.  `nowplaying` models
the condition `"@attr" in track and "nowplaying" in track["@attr"] and
track["@attr"]["nowplaying"] == "true"`. -/
structure RawTrack where
  nowplaying : Bool
  payload : String
deriving DecidableEq, Repr

/-- `res["recenttracks"]["@attr"]`, as far as the code reads it. -/
structure RecentAttr where
  totalPages : Nat
deriving DecidableEq, Repr

/-- `res["recenttracks"]`: the `"track"` and `"@attr"` keys may each be
missing. -/
structure RecentTracks where
  track : Option (List RawTrack)
  attr : Option RecentAttr
deriving DecidableEq, Repr

/-- A decoded JSON body: the `"recenttracks"` key may be missing. -/
structure ApiResponse where
  recenttracks : Option RecentTracks
deriving DecidableEq, Repr

/-- `extract_tracks(resp)`: if the envelope has `recenttracks.track`,
return the entries that are not now-playing; otherwise raise
`ClientError("Invalid API Response: ...")` (modelled as `.error`). -/
def extract_tracks (r : ApiResponse) : Except String (List RawTrack) :=
  match r.recenttracks with
  | some rt =>
    match rt.track with
    | some l => Except.ok (l.filter fun t => !t.nowplaying)
    | none => Except.error "Invalid API Response"
  | none => Except.error "Invalid API Response"

/-- `extract_tracks_total_pages(resp)`: read
`int(res["recenttracks"]["@attr"]["totalPages"])`, raising
`ClientError` when the keys are missing. -/
def extract_tracks_total_pages (r : ApiResponse) : Except String Nat :=
  match r.recenttracks with
  | some rt =>
    match rt.attr with
    | some a => Except.ok a.totalPages
    | none => Except.error "Invalid API Response"
  | none => Except.error "Invalid API Response"

/-! ## The retrying fetch loop `_fetch` (`requests.py`)

One HTTP attempt (`session.get` followed by `raise_for_status`) either
raises `ClientError` (`.fail`) or yields a response body (`.succeed`).
An oracle `att : Nat → FetchStep` gives the outcome of the i-th attempt.
The loop body is

    for _ in range(5):
        try:  resp = await session.get(url); resp.raise_for_status()
        except ClientError: log; await sleep(2.0)
        else: return await coro(resp)
    log  # 5 failures: falls through, returning None

Note that `coro(resp)` is evaluated in the `else:` branch, outside the
`try`, so an exception raised by `coro` propagates out of `_fetch`; this
is modelled by the `.error` result.  The trace also records how many
`session.get` attempts were made and the `sleep` calls performed (each
entry is the number of seconds slept, always `2`). -/

inductive FetchStep where
  | fail
  | succeed (resp : ApiResponse)
deriving DecidableEq, Repr

/-- Result of running `_fetch`: `result` is `.error e` when the
extractor raised (the exception escapes `_fetch`), `.ok none` when all
five attempts failed (Python returns `None`), `.ok (some v)` on
success; `attempts` counts the `session.get` calls; `sleeps` lists the
seconds of each `asyncio.sleep` performed. -/
structure FetchResult (T : Type) where
  result : Except String (Option T)
  attempts : Nat
  sleeps : List Nat
deriving Repr

/-- The retry loop of `_fetch`, with `i` attempts already made and
`fuel` loop iterations remaining (initially 5). -/
def fetchAux {T : Type} (coro : ApiResponse → Except String T)
    (att : Nat → FetchStep) : Nat → Nat → FetchResult T
  | i, 0 => ⟨Except.ok none, i, []⟩
  | i, fuel + 1 =>
    match att i with
    | FetchStep.fail =>
      let r := fetchAux coro att (i + 1) fuel
      ⟨r.result, r.attempts, 2 :: r.sleeps⟩
    | FetchStep.succeed b =>
      match coro b with
      | Except.ok v => ⟨Except.ok (some v), i + 1, []⟩
      | Except.error e => ⟨Except.error e, i + 1, []⟩

/-- `_fetch(session, coro, url)` from `requests.py`. -/
def fetchRetry {T : Type} (coro : ApiResponse → Except String T)
    (att : Nat → FetchStep) : FetchResult T :=
  fetchAux coro att 0 5

/-- `fetch_all(coro, urls, limit)`: one `_fetch` task per URL, results
gathered in task (i.e. URL) order.  Each URL gets its own attempt
oracle.  The concurrency gate (`Semaphore(limit)`) only schedules the
tasks and does not change any per-task result or the gathered order. -/
def fetch_all {T : Type} (coro : ApiResponse → Except String T)
    (atts : List (Nat → FetchStep)) : List (FetchResult T) :=
  atts.map (fetchRetry coro)

/-- `asyncio.gather` without `return_exceptions`: if any task raised,
the exception propagates (the first raising task in list order is
taken); otherwise the list of results. -/
def gatherResults {T : Type} : List (FetchResult T) →
    Except String (List (Option T))
  | [] => Except.ok []
  | r :: rs =>
    match r.result, gatherResults rs with
    | Except.error e, _ => Except.error e
    | Except.ok _, Except.error e => Except.error e
    | Except.ok v, Except.ok vs => Except.ok (v :: vs)

/-! ## `fetch_tracks` (`lastfm/api.py`)

    max_pages = await fetch_one(extract_tracks_total_pages, url(user, since, until))
    tracks = []
    if max_pages is None: return tracks
    for res in await fetch_all(extract_tracks,
                               [url(user, page, since, until)
                                for page in range(1, max_pages + 1)], limit=3):
        tracks.extend(res if res is not None else [])
    return tracks

The first request (the probe) and the per-page requests are separate
network attempts, so they get separate oracles. -/

/-- The page numbers of the URLs built by the list comprehension
`range(1, max_pages + 1)` in `fetch_tracks`. -/
def fetch_tracks_pages (maxPages : Nat) : List Nat :=
  List.range' 1 maxPages

def fetch_tracks (probeAtt : Nat → FetchStep)
    (pageAtt : Nat → Nat → FetchStep) : Except String (List RawTrack) :=
  match (fetchRetry extract_tracks_total_pages probeAtt).result with
  | Except.error e => Except.error e
  | Except.ok none => Except.ok []
  | Except.ok (some m) =>
    match gatherResults
        (fetch_all extract_tracks ((fetch_tracks_pages m).map pageAtt)) with
    | Except.error e => Except.error e
    | Except.ok rs => Except.ok (rs.map fun r => r.getD []).flatten

/-! ## Spotify candidate tracks and `select_proper_track`
(`spotify/api.py`)

`str.casefold` is modelled as lower-casing; both the code and the
property under verification only ever compare two casefolded strings,
so the particular folding function is immaterial to the statements. -/

def casefold (s : String) : String := ⟨s.data.map Char.toLower⟩

structure SpArtist where
  name : String
deriving DecidableEq, Repr

/-- `track["album"]`: `album_type`, `artists` and `total_tracks` are the
fields the resolver reads. -/
structure SpAlbum where
  albumType : String
  artists : List SpArtist
  totalTracks : Nat
deriving DecidableEq, Repr

/-- A search-result candidate: `name`, `artists`, `album`, `uri`. -/
structure SpTrack where
  name : String
  artists : List SpArtist
  album : SpAlbum
  uri : String
deriving DecidableEq, Repr

/-- `l[0]["name"]` on an artist list.  The source indexes position 0
unconditionally; real payloads always carry at least one artist, and the
default only makes the embedding total. -/
def headName (l : List SpArtist) : String :=
  (l.headD ⟨""⟩).name

/-- The filter of `select_proper_track`: the track name and the
first-listed artist name casefold-equal the requested title/artist. -/
def matchesRequest (title artist : String) (t : SpTrack) : Bool :=
  casefold t.name == casefold title
    && casefold (headName t.artists) == casefold artist

/-- The short-circuiting condition of the first tie-break tier:
`track["album"]["album_type"] == "album"` and the album's primary artist
casefold-equals the requested artist. -/
def albumTierMatch (artist : String) (t : SpTrack) : Bool :=
  t.album.albumType == "album"
    && casefold (headName t.album.artists) == casefold artist

/-- The album-artist condition of the second tier. -/
def epArtistMatch (artist : String) (t : SpTrack) : Bool :=
  casefold (headName t.album.artists) == casefold artist

/-- The `for idx, track in enumerate(res)` loop of
`select_proper_track`, carrying the current `res[suspected_ep_idx]`
(`best`) and `max_total`.  Hitting the first-tier condition breaks out
returning that candidate; otherwise a strictly larger `total_tracks` of
an album-artist-matching candidate updates the running best. -/
def selectLoop (artist : String) : List SpTrack → SpTrack → Nat → SpTrack
  | [], best, _ => best
  | t :: ts, best, maxTotal =>
    if albumTierMatch artist t then t
    else if epArtistMatch artist t && decide (maxTotal < t.album.totalTracks) then
      selectLoop artist ts t t.album.totalTracks
    else selectLoop artist ts best maxTotal

/-- `select_proper_track(results, title, artist)`: filter to exact
(casefolded) title/first-artist matches; on an empty filter return
`None`; otherwise run the tie-break loop starting from
`suspected_ep_idx = 0`, `max_total = 0`. -/
def select_proper_track (results : List SpTrack) (title artist : String) :
    Option SpTrack :=
  match results.filter (matchesRequest title artist) with
  | [] => none
  | r0 :: rest => some (selectLoop artist (r0 :: rest) r0 0)

/-- `detect_track(sp, title, artist)`: query in locale "ja", then in
locale "en".  `search_track` returns `None` on failure or the (possibly
empty) candidate list; `if ja_res := ...` treats `None` and `[]` alike,
and a locale whose filtered set is empty falls through to the next.
The two raw result lists are passed in as the search outcomes. -/
def detect_track (title artist : String)
    (jaRes enRes : Option (List SpTrack)) : Option SpTrack :=
  let tryLocale : Option (List SpTrack) → Option SpTrack := fun r =>
    match r with
    | some (t :: ts) => select_proper_track (t :: ts) title artist
    | _ => none
  match tryLocale jaRes with
  | some song => some song
  | none =>
    match tryLocale enRes with
    | some song => some song
    | none => none

/-! ## The history cache (`fetch_tracks_all` / `get_user_history`,
`lastfm/api.py`)

The durable state is the per-user JSON cache file, modelled as
`Option (List CachedTrack)` (`none` = the file does not exist).  The
remote service is an environment: whether the user-info lookup succeeds,
and what `recursively_remove_elements(await fetch_tracks(user, since))`
returns for a given `since` bound.  Python exceptions that escape are
`Except.error` outcomes. -/

/-- One entry of the cached JSON array.  `dateUts` is
`int(entry["date"]["uts"])` when `"date" in entry and "uts" in
entry["date"]`, and `none` when those keys are missing (the
broken-cache case); `body` stands for the remaining fields. -/
structure CachedTrack where
  dateUts : Option Int
  body : String
deriving DecidableEq, Repr

/-- Exceptions that can escape the cache operations. -/
inductive PyExn where
  | indexError
  | agplException
deriving DecidableEq, Repr

/-- The remote service as seen by `fetch_tracks_all`:
`userExists` is whether `fetch_user_info` returns a user (vs `None`),
and `fetched since` is the stripped result of
`fetch_tracks(user, since)` (`since = none` is an open-ended fetch). -/
structure AgpEnv where
  userExists : Bool
  fetched : Option Int → List CachedTrack

/-- Outcome of one `fetch_tracks_all` call: the escaping exception (if
any), the cache file content afterwards, whether `fetch_tracks` was
invoked, and whether the cache file was written. -/
structure AllResult where
  outcome : Except PyExn Unit
  cache : Option (List CachedTrack)
  fetchedHistory : Bool
  wrote : Bool
deriving Repr

/-- `fetch_tracks_all(user, refetch)`:

    if res := await fetch_user_info(user) is None: return   # user check
    since = None
    if not refetch:
        if os.path.exists(path):
            cache = json.load(open(path))
            if "date" in cache[0] and "uts" in cache[0]["date"]:
                since = datetime.fromtimestamp(int(cache[0]["date"]["uts"]) + 1, JST)
            else:
                log "Invalid cache data"; return
    res = recursively_remove_elements(await fetch_tracks(user, since))
    if not refetch:
        if os.path.exists(path): res.extend(json.load(open(path)))
    json.dump(res, open(path, "w"))

The walrus in the user check binds `res` to the *boolean*
`(await fetch_user_info(user)) is None`, so the early return fires
exactly when the lookup failed.  `cache[0]` on an empty array raises
`IndexError`.  `datetime.fromtimestamp(ts + 1, JST).timestamp() = ts + 1`,
so the `since` bound is the newest cached timestamp plus one second. -/
def fetch_tracks_all (env : AgpEnv) (refetch : Bool)
    (cache0 : Option (List CachedTrack)) : AllResult :=
  if !env.userExists then
    ⟨Except.ok (), cache0, false, false⟩
  else
    let sinceStep : Except PyExn (Option (Option Int)) :=
      if refetch then Except.ok (some none)
      else
        match cache0 with
        | none => Except.ok (some none)
        | some [] => Except.error PyExn.indexError
        | some (c :: _) =>
          match c.dateUts with
          | some ts => Except.ok (some (some (ts + 1)))
          | none => Except.ok none
    match sinceStep with
    | Except.error e => ⟨Except.error e, cache0, false, false⟩
    | Except.ok none => ⟨Except.ok (), cache0, false, false⟩
    | Except.ok (some since) =>
      let freshTracks := env.fetched since
      let res :=
        if !refetch then
          match cache0 with
          | some old => freshTracks ++ old
          | none => freshTracks
        else freshTracks
      ⟨Except.ok (), some res, true, true⟩

/-- Outcome of `get_user_history`: the returned list or escaping
exception, plus the same effect record as `AllResult`. -/
structure HistResult where
  outcome : Except PyExn (List CachedTrack)
  cache : Option (List CachedTrack)
  fetchedHistory : Bool
  wrote : Bool
deriving Repr

/-- `get_user_history(user, update, refetch)`: optionally run
`fetch_tracks_all` first (exceptions propagate), then return the cache
file content, or raise `AGPLException` when the file does not exist. -/
def get_user_history (env : AgpEnv) (update refetch : Bool)
    (cache0 : Option (List CachedTrack)) : HistResult :=
  if update then
    let r := fetch_tracks_all env refetch cache0
    match r.outcome with
    | Except.error e => ⟨Except.error e, r.cache, r.fetchedHistory, r.wrote⟩
    | Except.ok () =>
      match r.cache with
      | some c => ⟨Except.ok c, r.cache, r.fetchedHistory, r.wrote⟩
      | none => ⟨Except.error PyExn.agplException, r.cache, r.fetchedHistory, r.wrote⟩
  else
    match cache0 with
    | some c => ⟨Except.ok c, cache0, false, false⟩
    | none => ⟨Except.error PyExn.agplException, cache0, false, false⟩

/-! ## Lemmas: the descending binary search -/

lemma bisectAux_step_lt {l : List Int} {x : Int} {lo hi : Nat} (h : lo < hi)
    (hlt : l.getD ((lo + hi) / 2) 0 < x) :
    bisectAux l x lo hi = bisectAux l x lo ((lo + hi) / 2) := by
  rw [bisectAux]
  simp only [dif_pos h]
  exact if_pos hlt

lemma bisectAux_step_ge {l : List Int} {x : Int} {lo hi : Nat} (h : lo < hi)
    (hge : ¬ l.getD ((lo + hi) / 2) 0 < x) :
    bisectAux l x lo hi = bisectAux l x ((lo + hi) / 2 + 1) hi := by
  rw [bisectAux]
  simp only [dif_pos h]
  exact if_neg hge

lemma bisectAux_done {l : List Int} {x : Int} {lo hi : Nat} (h : ¬ lo < hi) :
    bisectAux l x lo hi = lo := by
  rw [bisectAux]
  simp [h]

/-- Loop invariant of `bisect_left_with_descending` on a non-increasing
list: starting from a window `[lo, hi)` whose left context is all `≥ x`
and whose right context is all `< x`, the loop lands on the boundary
between the two regions. -/
lemma bisectAux_spec (l : List Int) (x : Int)
    (hanti : ∀ i j (hi1 : i < l.length) (hj1 : j < l.length), i ≤ j → l[j] ≤ l[i]) :
    ∀ lo hi, hi ≤ l.length → lo ≤ hi →
      (∀ k (hk : k < l.length), k < lo → x ≤ l[k]) →
      (∀ k (hk : k < l.length), hi ≤ k → l[k] < x) →
      lo ≤ bisectAux l x lo hi ∧ bisectAux l x lo hi ≤ hi ∧
        (∀ k (hk : k < l.length), k < bisectAux l x lo hi → x ≤ l[k]) ∧
        (∀ k (hk : k < l.length), bisectAux l x lo hi ≤ k → l[k] < x) := by
  intro lo hi
  induction lo, hi using bisectAux.induct l x with
  | case1 lo hi h mid hlt ih =>
    intro hhil hlohi hlo hhi
    have hmidlo : lo ≤ mid := (Nat.le_div_iff_mul_le (by norm_num)).mpr (by omega)
    have hmidhi : mid < hi := (Nat.div_lt_iff_lt_mul (by norm_num)).mpr (by omega)
    have hmidlen : mid < l.length := lt_of_lt_of_le hmidhi hhil
    have hmidval : l[mid] < x := by
      rwa [List.getD_eq_getElem l 0 hmidlen] at hlt
    have hhi2 : ∀ k (hk : k < l.length), mid ≤ k → l[k] < x := by
      intro k hk hmk
      exact lt_of_le_of_lt (hanti mid k hmidlen hk hmk) hmidval
    have res := ih (le_of_lt hmidlen) hmidlo hlo hhi2
    rw [bisectAux_step_lt h (by rwa [List.getD_eq_getElem l 0 hmidlen])]
    exact ⟨res.1, le_trans res.2.1 (le_of_lt hmidhi), res.2.2⟩
  | case2 lo hi h mid hge ih =>
    intro hhil hlohi hlo hhi
    have hmidlo : lo ≤ mid := (Nat.le_div_iff_mul_le (by norm_num)).mpr (by omega)
    have hmidhi : mid < hi := (Nat.div_lt_iff_lt_mul (by norm_num)).mpr (by omega)
    have hmidlen : mid < l.length := lt_of_lt_of_le hmidhi hhil
    have hmidval : x ≤ l[mid] := by
      have := hge
      rw [List.getD_eq_getElem l 0 hmidlen] at this
      omega
    have hlo2 : ∀ k (hk : k < l.length), k < mid + 1 → x ≤ l[k] := by
      intro k hk hkm
      exact le_trans hmidval (hanti k mid hk hmidlen (by omega))
    have res := ih hhil (by omega) hlo2 hhi
    rw [bisectAux_step_ge h hge]
    exact ⟨le_trans hmidlo (le_trans (Nat.le_succ mid) res.1), res.2⟩
  | case3 lo hi h =>
    intro hhil hlohi hlo hhi
    rw [bisectAux_done h]
    exact ⟨le_rfl, hlohi, hlo, fun k hk hlk => hhi k hk (by omega)⟩

/-- The boundary property of `bisect_left_with_descending` on a
non-increasing list: everything strictly before the returned index is
`≥ x` and everything from it on is `< x`. -/
lemma bisect_boundary (l : List Int) (x : Int)
    (hanti : ∀ i j (hi1 : i < l.length) (hj1 : j < l.length), i ≤ j → l[j] ≤ l[i]) :
    bisect_left_with_descending l x ≤ l.length ∧
      (∀ k (hk : k < l.length), k < bisect_left_with_descending l x → x ≤ l[k]) ∧
      (∀ k (hk : k < l.length), bisect_left_with_descending l x ≤ k → l[k] < x) := by
  have res := bisectAux_spec l x hanti 0 l.length le_rfl (Nat.zero_le _)
    (fun k hk hk0 => absurd hk0 (by omega))
    (fun k hk hlk => absurd hk (by omega))
  exact ⟨res.2.1, res.2.2⟩

/-- The linear-scan characterization from the spec: `leftmostLt`
returns the first index whose value is `< x` (the length if none). -/
lemma leftmostLt_spec (l : List Int) (x : Int) :
    leftmostLt l x ≤ l.length ∧
      (∀ k (hk : k < l.length), k < leftmostLt l x → ¬ l[k] < x) ∧
      (∀ h : leftmostLt l x < l.length, l[leftmostLt l x] < x) := by
  induction l with
  | nil => simp [leftmostLt]
  | cons a t ih =>
    by_cases ha : a < x
    · refine ⟨by simp [leftmostLt, ha], ?_, ?_⟩
      · intro k hk hk0
        simp [leftmostLt, ha] at hk0
      · intro h
        simp [leftmostLt, ha]
    · refine ⟨?_, ?_, ?_⟩
      · simp only [leftmostLt, if_neg ha, List.length_cons]
        omega
      · intro k hk hkr
        match k with
        | 0 => simpa using ha
        | k + 1 =>
          simp only [leftmostLt, if_neg ha] at hkr
          have hk2 : k < t.length := by simpa using hk
          have := ih.2.1 k hk2 (by omega)
          simpa using this
      · intro h
        simp only [leftmostLt, if_neg ha] at h ⊢
        have h2 : leftmostLt t x < t.length := by simpa using h
        have := ih.2.2 h2
        simpa using this

/-- On a non-increasing list the loop of `bisect_left_with_descending`
computes exactly the leftmost index whose value is `< x`. -/
lemma bisect_eq_leftmostLt (l : List Int) (x : Int)
    (hanti : ∀ i j (hi1 : i < l.length) (hj1 : j < l.length), i ≤ j → l[j] ≤ l[i]) :
    bisect_left_with_descending l x = leftmostLt l x := by
  obtain ⟨hb1, hb2, hb3⟩ := bisect_boundary l x hanti
  obtain ⟨hl1, hl2, hl3⟩ := leftmostLt_spec l x
  set r1 := bisect_left_with_descending l x with hr1
  set r2 := leftmostLt l x with hr2
  rcases Nat.lt_trichotomy r1 r2 with h | h | h
  · have hr1len : r1 < l.length := lt_of_lt_of_le h hl1
    have := hl2 r1 hr1len h
    have := hb3 r1 hr1len le_rfl
    omega
  · exact h
  · have hr2len : r2 < l.length := lt_of_lt_of_le h hb1
    have := hb2 r2 hr2len h
    have := hl3 hr2len
    omega

/-! ## Lemmas: slices versus filters -/

/-- When a Boolean predicate holds exactly on the index window
`[u, s)` of a list, filtering the list equals taking that contiguous
slice (`l[u:s]` in Python, i.e. `(l.take s).drop u`). -/
lemma filter_eq_slice {α : Type} (l : List α) (p : α → Bool) (u s : Nat)
    (hs : s ≤ l.length) (hus : u ≤ s)
    (h1 : ∀ k (hk : k < l.length), k < u → p l[k] = false)
    (h2 : ∀ k (hk : k < l.length), u ≤ k → k < s → p l[k] = true)
    (h3 : ∀ k (hk : k < l.length), s ≤ k → p l[k] = false) :
    l.filter p = (l.take s).drop u := by
  have hsplit : l = l.take s ++ l.drop s := (List.take_append_drop s l).symm
  have hdrop : (l.drop s).filter p = [] := by
    rw [List.filter_eq_nil_iff]
    intro a ha
    obtain ⟨n, hn, hna⟩ := List.mem_iff_getElem.mp ha
    have hlen : s + n < l.length := by
      have := hn
      simp [List.length_drop] at this
      omega
    have : (l.drop s)[n] = l[s + n] := List.getElem_drop l
    rw [this] at hna
    rw [← hna]
    simp [h3 (s + n) hlen (by omega)]
  have htakesplit : l.take s = l.take u ++ (l.take s).drop u := by
    have := (List.take_append_drop u (l.take s)).symm
    rwa [List.take_take, Nat.min_eq_left hus] at this
  have htakeu : (l.take u).filter p = [] := by
    rw [List.filter_eq_nil_iff]
    intro a ha
    obtain ⟨n, hn, hna⟩ := List.mem_iff_getElem.mp ha
    have hlen : n < l.length := by
      have := hn
      simp [List.length_take] at this
      omega
    have hnu : n < u := by
      have := hn
      simp [List.length_take] at this
      omega
    have : (l.take u)[n] = l[n] := List.getElem_take l
    rw [this] at hna
    rw [← hna]
    simp [h1 n hlen hnu]
  have hslice : ((l.take s).drop u).filter p = (l.take s).drop u := by
    rw [List.filter_eq_self]
    intro a ha
    obtain ⟨n, hn, hna⟩ := List.mem_iff_getElem.mp ha
    have hlen2 : u + n < (l.take s).length := by
      have := hn
      simp [List.length_drop] at this ⊢
      omega
    have hlen3 : u + n < l.length := by
      have := hlen2
      simp [List.length_take] at this
      omega
    have hlts : u + n < s := by
      have := hlen2
      simp [List.length_take] at this
      omega
    have e1 : ((l.take s).drop u)[n] = (l.take s)[u + n] := List.getElem_drop (l.take s)
    have e2 : (l.take s)[u + n] = l[u + n] := List.getElem_take l
    rw [e1, e2] at hna
    rw [← hna]
    exact h2 (u + n) hlen3 (by omega) hlts
  calc l.filter p = (l.take s ++ l.drop s).filter p := by rw [← hsplit]
    _ = (l.take s).filter p ++ (l.drop s).filter p := List.filter_append _ _
    _ = (l.take s).filter p := by rw [hdrop, List.append_nil]
    _ = (l.take u ++ (l.take s).drop u).filter p := by rw [← htakesplit]
    _ = (l.take u).filter p ++ ((l.take s).drop u).filter p := List.filter_append _ _
    _ = (l.take s).drop u := by rw [htakeu, hslice, List.nil_append]

/-- A strictly descending history yields a non-increasing key list. -/
lemma uts_map_anti (tracks : List Track)
    (hsort : List.Pairwise (fun a b : Track => b.uts < a.uts) tracks) :
    ∀ i j (hi1 : i < (tracks.map fun t => t.uts).length)
        (hj1 : j < (tracks.map fun t => t.uts).length), i ≤ j →
      (tracks.map fun t => t.uts)[j] ≤ (tracks.map fun t => t.uts)[i] := by
  intro i j hi1 hj1 hij
  have hi2 : i < tracks.length := by simpa using hi1
  have hj2 : j < tracks.length := by simpa using hj1
  rw [List.getElem_map, List.getElem_map]
  rcases Nat.lt_or_ge i j with h | h
  · exact le_of_lt (List.pairwise_iff_getElem.mp hsort i j hi2 hj2 h)
  · have heq : i = j := by omega
    subst heq
    exact le_rfl

/-- Core correctness of `get_user_track_counter`: on a strictly
descending history with `since ≤ until` (after applying the defaults
`0` and the sentinel `2_220_000_000`), the counter built from the
binary-searched slice equals the counter of the events satisfying
`since ≤ timestamp < until`. -/
lemma get_user_track_counter_eq_filter (tracks : List Track)
    (hsort : List.Pairwise (fun a b : Track => b.uts < a.uts) tracks)
    (since? until? : Option Int)
    (hle : since?.getD 0 ≤ until?.getD 2220000000)
    (ignoreAlbum : Bool) (g : Song) :
    get_user_track_counter tracks since? until? ignoreAlbum g
      = ((tracks.filter fun t =>
            decide (since?.getD 0 ≤ t.uts ∧ t.uts < until?.getD 2220000000)).map
          (trackSong ignoreAlbum)).count g := by
  have hanti := uts_map_anti tracks hsort
  obtain ⟨hs1, hs2, hs3⟩ :=
    bisect_boundary (tracks.map fun t => t.uts) (since?.getD 0) hanti
  obtain ⟨hu1, hu2, hu3⟩ :=
    bisect_boundary (tracks.map fun t => t.uts) (until?.getD 2220000000) hanti
  have hLlen : (tracks.map fun t => t.uts).length = tracks.length := by simp
  have hgm : ∀ k (hk : k < tracks.length)
      (hk2 : k < (tracks.map fun t => t.uts).length),
      (tracks.map fun t => t.uts)[k] = tracks[k].uts := by
    intro k hk hk2
    exact List.getElem_map _
  have hus : bisect_left_with_descending (tracks.map fun t => t.uts)
        (until?.getD 2220000000)
      ≤ bisect_left_with_descending (tracks.map fun t => t.uts) (since?.getD 0) := by
    by_contra hcon
    have h1 : bisect_left_with_descending (tracks.map fun t => t.uts) (since?.getD 0)
        < bisect_left_with_descending (tracks.map fun t => t.uts)
            (until?.getD 2220000000) := by omega
    have hslen : bisect_left_with_descending (tracks.map fun t => t.uts)
        (since?.getD 0) < (tracks.map fun t => t.uts).length :=
      lt_of_lt_of_le h1 hu1
    have hge := hu2 _ hslen h1
    have hlt := hs3 _ hslen le_rfl
    omega
  have hfil : tracks.filter (fun t =>
        decide (since?.getD 0 ≤ t.uts ∧ t.uts < until?.getD 2220000000))
      = (tracks.take (bisect_left_with_descending (tracks.map fun t => t.uts)
            (since?.getD 0))).drop
          (bisect_left_with_descending (tracks.map fun t => t.uts)
            (until?.getD 2220000000)) := by
    apply filter_eq_slice tracks _ _ _ (by omega) hus
    · intro k hk hku
      have hkL : k < (tracks.map fun t => t.uts).length := by omega
      have hbk := hu2 k hkL hku
      rw [hgm k hk hkL] at hbk
      simp only [decide_eq_false_iff_not]
      intro hcon
      omega
    · intro k hk hks hkr
      have hkL : k < (tracks.map fun t => t.uts).length := by omega
      have hak := hs2 k hkL hkr
      have hbk := hu3 k hkL hks
      rw [hgm k hk hkL] at hak hbk
      simp only [decide_eq_true_eq]
      exact ⟨hak, hbk⟩
    · intro k hk hks
      have hkL : k < (tracks.map fun t => t.uts).length := by omega
      have hak := hs3 k hkL hks
      rw [hgm k hk hkL] at hak
      simp only [decide_eq_false_iff_not]
      intro hcon
      omega
  simp only [get_user_track_counter]
  rw [hfil]

/-- C1: For a strictly descending history and bounds `since ≤ until`
(with `since` defaulting to `0` and `until` to the unbounded-future
sentinel `2_220_000_000`), `get_user_track_counter` returns exactly the
multiplicity, per identity, of the events with
`since ≤ timestamp < until`; the boundary indices computed by
`bisect_left_with_descending` are the leftmost indices whose timestamp
is `< x`; an empty history yields an empty counter.  (Amended from the
claim: a *full* range over a nonempty history yields the — nonempty —
counter of all events, not an empty counter; see the counterexample.) -/
theorem counter_in_range_spec (tracks : List Track)
    (hsort : List.Pairwise (fun a b : Track => b.uts < a.uts) tracks)
    (since? until? : Option Int)
    (hle : since?.getD 0 ≤ until?.getD 2220000000)
    (ignoreAlbum : Bool) (g : Song) :
    (get_user_track_counter tracks since? until? ignoreAlbum g
      = ((tracks.filter fun t =>
            decide (since?.getD 0 ≤ t.uts ∧ t.uts < until?.getD 2220000000)).map
          (trackSong ignoreAlbum)).count g)
    ∧ (∀ x : Int, bisect_left_with_descending (tracks.map fun t => t.uts) x
        = leftmostLt (tracks.map fun t => t.uts) x)
    ∧ (tracks = [] → get_user_track_counter tracks since? until? ignoreAlbum g = 0) := by
  refine ⟨get_user_track_counter_eq_filter tracks hsort since? until? hle ignoreAlbum g,
    fun x => bisect_eq_leftmostLt _ x (uts_map_anti tracks hsort), ?_⟩
  intro hnil
  rw [get_user_track_counter_eq_filter tracks hsort since? until? hle ignoreAlbum g,
    hnil]
  simp

/-- Witness for `counter_in_range_spec` at a concrete three-event
history and concrete bounds. -/
theorem counter_in_range_spec_witness :
    (List.Pairwise (fun a b : Track => b.uts < a.uts)
      [⟨"B", "Y", "M", 200⟩, ⟨"A", "X", "L", 100⟩, ⟨"A", "X", "L", 50⟩])
    ∧ ((60 : Int) ≤ 210)
    ∧ get_user_track_counter
        [⟨"B", "Y", "M", 200⟩, ⟨"A", "X", "L", 100⟩, ⟨"A", "X", "L", 50⟩]
        (some 60) (some 210) false ⟨"A", "X", "L"⟩
      = (([⟨"B", "Y", "M", 200⟩, ⟨"A", "X", "L", 100⟩,
            (⟨"A", "X", "L", 50⟩ : Track)].filter fun t =>
            decide ((60 : Int) ≤ t.uts ∧ t.uts < 210)).map
          (trackSong false)).count ⟨"A", "X", "L"⟩ :=
  ⟨by decide, by decide,
    (counter_in_range_spec
      [⟨"B", "Y", "M", 200⟩, ⟨"A", "X", "L", 100⟩, ⟨"A", "X", "L", 50⟩]
      (by decide) (some 60) (some 210) (by decide) false ⟨"A", "X", "L"⟩).1⟩

/-- C1 counterexample: on a *full* range (both bounds left at their
defaults) over the nonempty one-event history `[("A","X","L",100)]`,
`get_user_track_counter` returns the counter `{("A","X","L") ↦ 1}`,
which is not empty — refuting the claim's clause that a full range
returns an empty counter. -/
theorem counter_full_range_not_empty :
    get_user_track_counter [⟨"A", "X", "L", 100⟩] none none false ⟨"A", "X", "L"⟩ = 1
    ∧ ¬ (∀ g : Song,
        get_user_track_counter [⟨"A", "X", "L", 100⟩] none none false g = 0) := by
  have h1 : get_user_track_counter [⟨"A", "X", "L", 100⟩] none none false
      ⟨"A", "X", "L"⟩ = 1 := by
    rw [get_user_track_counter_eq_filter [⟨"A", "X", "L", 100⟩] (by decide)
      none none (by decide) false ⟨"A", "X", "L"⟩]
    decide
  refine ⟨h1, fun hall => ?_⟩
  have := hall ⟨"A", "X", "L"⟩
  omega

/-! ## Lemmas: the retry loop and the paginated fetch -/

lemma fetchAux_attempts_le {T : Type} (coro : ApiResponse → Except String T)
    (att : Nat → FetchStep) :
    ∀ fuel i, (fetchAux coro att i fuel).attempts ≤ i + fuel := by
  intro fuel
  induction fuel with
  | zero =>
    intro i
    simp [fetchAux]
  | succ n ih =>
    intro i
    cases hai : att i with
    | fail =>
      have h2 := ih (i + 1)
      simp only [fetchAux, hai]
      omega
    | succeed b =>
      cases hc : coro b <;> simp [fetchAux, hai, hc]

lemma fetchAux_sleeps_two {T : Type} (coro : ApiResponse → Except String T)
    (att : Nat → FetchStep) :
    ∀ fuel i, ∀ d ∈ (fetchAux coro att i fuel).sleeps, d = 2 := by
  intro fuel
  induction fuel with
  | zero =>
    intro i
    simp [fetchAux]
  | succ n ih =>
    intro i
    cases hai : att i with
    | fail =>
      have h2 := ih (i + 1)
      simp only [fetchAux, hai]
      intro d hd
      rcases List.mem_cons.mp hd with h | h
      · exact h
      · exact h2 d h
    | succeed b =>
      cases hc : coro b <;> simp [fetchAux, hai, hc]

lemma fetchAux_all_fail {T : Type} (coro : ApiResponse → Except String T)
    (att : Nat → FetchStep) (hfail : ∀ j, att j = FetchStep.fail) :
    ∀ fuel i, fetchAux coro att i fuel
      = ⟨Except.ok none, i + fuel, List.replicate fuel 2⟩ := by
  intro fuel
  induction fuel with
  | zero =>
    intro i
    simp [fetchAux]
  | succ n ih =>
    intro i
    simp only [fetchAux, hfail i, ih (i + 1), List.replicate_succ]
    congr 1
    omega

lemma gatherResults_map_ok {T : Type} (f : Nat → FetchResult T)
    (res : Nat → Option T) (ps : List Nat)
    (h : ∀ p ∈ ps, (f p).result = Except.ok (res p)) :
    gatherResults (ps.map f) = Except.ok (ps.map res) := by
  induction ps with
  | nil => rfl
  | cons p ps ih =>
    have hp := h p (List.mem_cons_self p ps)
    have hrest := ih fun q hq => h q (List.mem_cons_of_mem p hq)
    simp [gatherResults, hp, hrest]

/-- Assembly of `fetch_tracks` when the probe learned `m` total pages
and every page request produced a result (possibly `None` after five
failures): the output is the per-page results, `None` replaced by `[]`,
flattened in page order 1..m. -/
lemma fetch_tracks_assemble (probeAtt : Nat → FetchStep)
    (pageAtt : Nat → Nat → FetchStep) (m : Nat)
    (pres : Nat → Option (List RawTrack))
    (hp : (fetchRetry extract_tracks_total_pages probeAtt).result
      = Except.ok (some m))
    (hpage : ∀ p, (fetchRetry extract_tracks (pageAtt p)).result
      = Except.ok (pres p)) :
    fetch_tracks probeAtt pageAtt
      = Except.ok (((fetch_tracks_pages m).map fun p => (pres p).getD []).flatten) := by
  have hg : gatherResults (fetch_all extract_tracks ((fetch_tracks_pages m).map pageAtt))
      = Except.ok ((fetch_tracks_pages m).map pres) := by
    have : fetch_all extract_tracks ((fetch_tracks_pages m).map pageAtt)
        = (fetch_tracks_pages m).map fun p => fetchRetry extract_tracks (pageAtt p) := by
      simp [fetch_all, List.map_map]
    rw [this]
    exact gatherResults_map_ok _ pres _ fun p _ => hpage p
  simp only [fetch_tracks, hp, hg]
  simp [List.map_map]
  rfl

/-- C2 (code bug in the source): a well-formed HTTP response whose JSON
body lacks the `recenttracks` envelope makes `extract_tracks` raise
`ClientError`, but `_fetch` evaluates the extractor in the `else:`
branch of its `try`, outside the `except ClientError` handler — so the
error escapes `_fetch` after a single attempt instead of counting as a
retry-triggering failure.  The theorem evaluates the loop at that
failing input: the result is the escaping error, one attempt, no retry
sleep. -/
theorem extract_error_escapes_retry :
    fetchRetry extract_tracks (fun _ => FetchStep.succeed ⟨none⟩)
      = ⟨Except.error "Invalid API Response", 1, []⟩ := by
  rfl

/-- C3: each attempt of `_fetch` that fails transiently is retried
after a fixed 2-second sleep, with at most 5 total attempts; an
endpoint failing 4 times then succeeding still yields its data on the
5th attempt; a page failing all 5 attempts yields `None` — and in
`fetch_tracks` such a page contributes `[]` while the overall fetch
returns every other page's records in page order without raising. -/
theorem fetch_retry_policy
    (attOk attFail : Nat → FetchStep) (b : ApiResponse) (tl : List RawTrack)
    (h1 : ∀ i, i < 4 → attOk i = FetchStep.fail)
    (h2 : attOk 4 = FetchStep.succeed b)
    (hb : extract_tracks b = Except.ok tl)
    (h3 : ∀ i, attFail i = FetchStep.fail)
    (probeAtt : Nat → FetchStep) (pageAtt : Nat → Nat → FetchStep)
    (m k : Nat) (pres : Nat → Option (List RawTrack))
    (hp : (fetchRetry extract_tracks_total_pages probeAtt).result
      = Except.ok (some m))
    (hpage : ∀ p, (fetchRetry extract_tracks (pageAtt p)).result
      = Except.ok (pres p))
    (hk : pres k = none) :
    (∀ (T : Type) (coro : ApiResponse → Except String T) (att : Nat → FetchStep),
        (fetchRetry coro att).attempts ≤ 5
        ∧ ∀ d ∈ (fetchRetry coro att).sleeps, d = 2)
    ∧ fetchRetry extract_tracks attOk = ⟨Except.ok (some tl), 5, [2, 2, 2, 2]⟩
    ∧ fetchRetry extract_tracks attFail = ⟨Except.ok none, 5, [2, 2, 2, 2, 2]⟩
    ∧ (pres k).getD [] = []
    ∧ fetch_tracks probeAtt pageAtt
      = Except.ok (((fetch_tracks_pages m).map fun p => (pres p).getD []).flatten) := by
  refine ⟨?_, ?_, ?_, by simp [hk], fetch_tracks_assemble probeAtt pageAtt m pres hp hpage⟩
  · intro T coro att
    exact ⟨fetchAux_attempts_le coro att 5 0, fetchAux_sleeps_two coro att 5 0⟩
  · simp [fetchRetry, fetchAux, h1 0 (by omega), h1 1 (by omega), h1 2 (by omega),
      h1 3 (by omega), h2, hb]
  · have := fetchAux_all_fail (T := List RawTrack) extract_tracks attFail h3 5 0
    simpa [fetchRetry] using this

/-- Witness for `fetch_retry_policy` with concrete oracles: the
fail-four-then-succeed endpoint, the always-failing endpoint used for
page 2, a probe answering 2 total pages, and page 1 succeeding with one
record. -/
theorem fetch_retry_policy_witness :
    ((∀ i : Nat, i < 4 → (fun j : Nat => if j < 4 then FetchStep.fail
        else FetchStep.succeed ⟨some ⟨some [⟨false, "rec"⟩], none⟩⟩) i = FetchStep.fail)
    ∧ (fun j : Nat => if j < 4 then FetchStep.fail
        else FetchStep.succeed ⟨some ⟨some [⟨false, "rec"⟩], none⟩⟩) 4
        = FetchStep.succeed ⟨some ⟨some [⟨false, "rec"⟩], none⟩⟩
    ∧ extract_tracks ⟨some ⟨some [⟨false, "rec"⟩], none⟩⟩
        = Except.ok [⟨false, "rec"⟩]
    ∧ (∀ i : Nat, (fun _ : Nat => FetchStep.fail) i = FetchStep.fail))
    ∧ fetch_tracks (fun _ => FetchStep.succeed ⟨some ⟨none, some ⟨2⟩⟩⟩)
        (fun p => if p = 1
          then fun _ => FetchStep.succeed ⟨some ⟨some [⟨false, "rec"⟩], none⟩⟩
          else fun _ => FetchStep.fail)
      = Except.ok ((
          (fetch_tracks_pages 2).map fun p =>
            ((fun q => if q = 1 then some [(⟨false, "rec"⟩ : RawTrack)] else none) p).getD
              []).flatten) := by
  have hpage : ∀ p, (fetchRetry extract_tracks ((fun p : Nat => if p = 1
      then fun _ : Nat => FetchStep.succeed ⟨some ⟨some [⟨false, "rec"⟩], none⟩⟩
      else fun _ : Nat => FetchStep.fail) p)).result
      = Except.ok ((fun q : Nat => if q = 1 then some [(⟨false, "rec"⟩ : RawTrack)] else none) p) := by
    intro p
    by_cases hp1 : p = 1
    · simp only [hp1, if_pos rfl]
      rfl
    · simp only [if_neg hp1]
      rfl
  refine ⟨⟨fun i hi => by simp [hi], by norm_num, rfl, fun i => rfl⟩, ?_⟩
  exact (fetch_retry_policy
    (fun j => if j < 4 then FetchStep.fail
      else FetchStep.succeed ⟨some ⟨some [⟨false, "rec"⟩], none⟩⟩)
    (fun _ => FetchStep.fail) ⟨some ⟨some [⟨false, "rec"⟩], none⟩⟩ [⟨false, "rec"⟩]
    (fun i hi => by simp [hi]) (by norm_num) rfl (fun i => rfl)
    (fun _ => FetchStep.succeed ⟨some ⟨none, some ⟨2⟩⟩⟩)
    (fun p => if p = 1
      then fun _ => FetchStep.succeed ⟨some ⟨some [⟨false, "rec"⟩], none⟩⟩
      else fun _ => FetchStep.fail)
    2 2 (fun q => if q = 1 then some [⟨false, "rec"⟩] else none)
    rfl hpage (by norm_num)).2.2.2.2

/-- C7 (amended): in `fetch_tracks` page 1 is first fetched alone
solely to learn the total page count (`extract_tracks_total_pages`
reads only the envelope's `@attr`, ignoring the track list), and then
pages **1** through `totalPages` are fetched (the source builds URLs
for `range(1, max_pages + 1)`, so the probe's page is requested again
and the probe's body is discarded); each page's records appear exactly
once in the assembled result, in page-number order. -/
theorem fetch_pages_assembly (probeAtt : Nat → FetchStep)
    (pageAtt : Nat → Nat → FetchStep) (m : Nat) (dat : Nat → List RawTrack)
    (hp : (fetchRetry extract_tracks_total_pages probeAtt).result
      = Except.ok (some m))
    (hpage : ∀ p, (fetchRetry extract_tracks (pageAtt p)).result
      = Except.ok (some (dat p))) :
    fetch_tracks probeAtt pageAtt
      = Except.ok (((fetch_tracks_pages m).map dat).flatten)
    ∧ fetch_tracks_pages m = List.range' 1 m
    ∧ (∀ (tr : Option (List RawTrack)) (attr : RecentAttr),
        extract_tracks_total_pages ⟨some ⟨tr, some attr⟩⟩
          = Except.ok attr.totalPages) :=
  ⟨fetch_tracks_assemble probeAtt pageAtt m (fun p => some (dat p)) hp hpage,
    rfl, fun _tr _attr => rfl⟩

/-- Witness for `fetch_pages_assembly`: a probe answering 3 total
pages, every page succeeding with the single record `"rec"`. -/
theorem fetch_pages_assembly_witness :
    ((fetchRetry extract_tracks_total_pages
        (fun _ => FetchStep.succeed ⟨some ⟨none, some ⟨3⟩⟩⟩)).result
      = Except.ok (some 3))
    ∧ (∀ p : Nat, (fetchRetry extract_tracks ((fun _ : Nat => fun _ : Nat =>
        FetchStep.succeed ⟨some ⟨some [⟨false, "rec"⟩], none⟩⟩) p)).result
      = Except.ok (some ((fun _ : Nat => [(⟨false, "rec"⟩ : RawTrack)]) p)))
    ∧ fetch_tracks (fun _ => FetchStep.succeed ⟨some ⟨none, some ⟨3⟩⟩⟩)
        (fun _ _ => FetchStep.succeed ⟨some ⟨some [⟨false, "rec"⟩], none⟩⟩)
      = Except.ok (((fetch_tracks_pages 3).map
          fun _ => [(⟨false, "rec"⟩ : RawTrack)]).flatten) :=
  ⟨rfl, fun _p => rfl,
    (fetch_pages_assembly (fun _ => FetchStep.succeed ⟨some ⟨none, some ⟨3⟩⟩⟩)
      (fun _ _ => FetchStep.succeed ⟨some ⟨some [⟨false, "rec"⟩], none⟩⟩)
      3 (fun _ => [⟨false, "rec"⟩]) rfl (fun _p => rfl)).1⟩

/-- C7 counterexample: the claim says that after the page-1 probe,
pages **2** through `totalPages` are fetched; with `totalPages = 2` the
source's URL comprehension `range(1, max_pages + 1)` requests pages
`[1, 2]`, not `[2]` — page 1 is fetched a second time. -/
theorem fetch_pages_requested_cex :
    fetch_tracks_pages 2 = [1, 2] ∧ fetch_tracks_pages 2 ≠ [2] := by
  constructor
  · rfl
  · decide

/-! ## Lemmas: the Spotify tie-break loop -/

/-- The tie-break loop either keeps the initial best candidate or
returns an element of the scanned list. -/
lemma selectLoop_mem (artist : String) :
    ∀ (l : List SpTrack) (best : SpTrack) (m : Nat),
      selectLoop artist l best m = best ∨ selectLoop artist l best m ∈ l := by
  intro l
  induction l with
  | nil =>
    intro best m
    left
    rfl
  | cons t ts ih =>
    intro best m
    simp only [selectLoop]
    by_cases h1 : albumTierMatch artist t = true
    · rw [if_pos h1]
      right
      exact List.mem_cons_self t ts
    · rw [if_neg h1]
      by_cases h2 : (epArtistMatch artist t && decide (m < t.album.totalTracks)) = true
      · rw [if_pos h2]
        rcases ih t t.album.totalTracks with h | h
        · right
          rw [h]
          exact List.mem_cons_self t ts
        · right
          exact List.mem_cons_of_mem t h
      · rw [if_neg h2]
        rcases ih best m with h | h
        · left
          exact h
        · right
          exact List.mem_cons_of_mem t h

/-- First tie-break tier: the loop short-circuits on the first
candidate whose release is an artist-matching album. -/
lemma selectLoop_find_album (artist : String) :
    ∀ (l : List SpTrack) (best : SpTrack) (m : Nat) (t : SpTrack),
      l.find? (albumTierMatch artist) = some t →
      selectLoop artist l best m = t := by
  intro l
  induction l with
  | nil =>
    intro best m t hf
    simp at hf
  | cons u ts ih =>
    intro best m t hf
    by_cases hu : albumTierMatch artist u = true
    · rw [List.find?_cons_of_pos ts hu] at hf
      injection hf with hf
      simp only [selectLoop]
      rw [if_pos hu, hf]
    · rw [List.find?_cons_of_neg ts hu] at hf
      simp only [selectLoop]
      rw [if_neg hu]
      by_cases h2 : (epArtistMatch artist u && decide (m < u.album.totalTracks)) = true
      · rw [if_pos h2]
        exact ih u u.album.totalTracks t hf
      · rw [if_neg h2]
        exact ih best m t hf

/-- Second tie-break tier invariant: when no candidate reaches the
first tier, the loop either keeps the initial best (and then no
album-artist-matching candidate beats the initial `max_total`), or
returns an album-artist-matching candidate whose total-track-count
strictly beats the initial `max_total` and is maximal over the list. -/
lemma selectLoop_no_album_spec (artist : String) :
    ∀ (l : List SpTrack) (best : SpTrack) (m : Nat),
      (∀ t ∈ l, albumTierMatch artist t = false) →
      (selectLoop artist l best m = best
        ∧ ∀ t ∈ l, epArtistMatch artist t = true → t.album.totalTracks ≤ m)
      ∨ (selectLoop artist l best m ∈ l
        ∧ epArtistMatch artist (selectLoop artist l best m) = true
        ∧ m < (selectLoop artist l best m).album.totalTracks
        ∧ ∀ t ∈ l, epArtistMatch artist t = true →
            t.album.totalTracks ≤ (selectLoop artist l best m).album.totalTracks) := by
  intro l
  induction l with
  | nil =>
    intro best m hna
    left
    exact ⟨rfl, by simp⟩
  | cons u ts ih =>
    intro best m hna
    have hu : albumTierMatch artist u = false := hna u (List.mem_cons_self u ts)
    have hnats : ∀ t ∈ ts, albumTierMatch artist t = false :=
      fun t ht => hna t (List.mem_cons_of_mem u ht)
    simp only [selectLoop, hu, Bool.false_eq_true, if_false]
    by_cases h2 : (epArtistMatch artist u && decide (m < u.album.totalTracks)) = true
    · rw [if_pos h2]
      have h2c := h2
      rw [Bool.and_eq_true] at h2c
      have hep : epArtistMatch artist u = true := h2c.1
      have hmu : m < u.album.totalTracks := of_decide_eq_true h2c.2
      rcases ih u u.album.totalTracks hnats with ⟨heq, hbnd⟩ | ⟨hmem, hep2, hlt, hbnd⟩
      · right
        refine ⟨by rw [heq]; exact List.mem_cons_self u ts, by rw [heq]; exact hep,
          by rw [heq]; exact hmu, ?_⟩
        intro t ht htep
        rcases List.mem_cons.mp ht with h | h
        · subst h
          rw [heq]
        · rw [heq]
          exact hbnd t h htep
      · right
        refine ⟨List.mem_cons_of_mem u hmem, hep2, lt_trans hmu hlt, ?_⟩
        intro t ht htep
        rcases List.mem_cons.mp ht with h | h
        · subst h
          exact le_of_lt hlt
        · exact hbnd t h htep
    · rw [if_neg h2]
      have hnotbeat : epArtistMatch artist u = true → u.album.totalTracks ≤ m := by
        intro hep
        by_contra hcon
        apply h2
        rw [Bool.and_eq_true]
        exact ⟨hep, decide_eq_true (by omega)⟩
      rcases ih best m hnats with ⟨heq, hbnd⟩ | ⟨hmem, hep2, hlt, hbnd⟩
      · left
        refine ⟨heq, ?_⟩
        intro t ht htep
        rcases List.mem_cons.mp ht with h | h
        · subst h
          exact hnotbeat htep
        · exact hbnd t h htep
      · right
        refine ⟨List.mem_cons_of_mem u hmem, hep2, hlt, ?_⟩
        intro t ht htep
        rcases List.mem_cons.mp ht with h | h
        · subst h
          exact le_trans (hnotbeat htep) (le_of_lt hlt)
        · exact hbnd t h htep

/-- C4 (amended): over the filtered candidate set, evaluated in
candidate order, `select_proper_track` selects (1) the first candidate
whose release has type "album" and whose primary release-artist
casefold-matches the requested artist, short-circuiting the scan;
(2) otherwise, *provided some release-artist-matching candidate has a
positive total-track-count*, a release-artist-matching candidate whose
total-track-count is maximal over the whole filtered set; (3) otherwise
(in particular when every release-artist-matching candidate has zero
total tracks) the first filtered candidate.  The positivity proviso is
forced by the source's `max_total = 0` initialisation together with the
strict `>` comparison; see the counterexample. -/
theorem select_proper_track_tiers (title artist : String)
    (results : List SpTrack) (r0 : SpTrack) (rest : List SpTrack)
    (hres : results.filter (matchesRequest title artist) = r0 :: rest) :
    (∀ t, (r0 :: rest).find? (albumTierMatch artist) = some t →
      select_proper_track results title artist = some t)
    ∧ ((r0 :: rest).find? (albumTierMatch artist) = none →
        ((∃ t ∈ r0 :: rest, epArtistMatch artist t = true
            ∧ 0 < t.album.totalTracks) →
          ∃ s, select_proper_track results title artist = some s
            ∧ s ∈ r0 :: rest
            ∧ epArtistMatch artist s = true
            ∧ ∀ t ∈ r0 :: rest, epArtistMatch artist t = true →
                t.album.totalTracks ≤ s.album.totalTracks)
        ∧ ((∀ t ∈ r0 :: rest, epArtistMatch artist t = true →
              t.album.totalTracks = 0) →
          select_proper_track results title artist = some r0)) := by
  have hsel : select_proper_track results title artist
      = some (selectLoop artist (r0 :: rest) r0 0) := by
    simp only [select_proper_track, hres]
  refine ⟨?_, ?_⟩
  · intro t hf
    rw [hsel, selectLoop_find_album artist (r0 :: rest) r0 0 t hf]
  · intro hnone
    have hna : ∀ t ∈ r0 :: rest, albumTierMatch artist t = false := by
      intro t ht
      have := List.find?_eq_none.mp hnone t ht
      simpa using this
    refine ⟨?_, ?_⟩
    · rintro ⟨t, ht, htep, htpos⟩
      rcases selectLoop_no_album_spec artist (r0 :: rest) r0 0 hna with
        ⟨heq, hbnd⟩ | ⟨hmem, hep2, hlt, hbnd⟩
      · have := hbnd t ht htep
        omega
      · exact ⟨selectLoop artist (r0 :: rest) r0 0, hsel, hmem, hep2, hbnd⟩
    · intro hzero
      rcases selectLoop_no_album_spec artist (r0 :: rest) r0 0 hna with
        ⟨heq, hbnd⟩ | ⟨hmem, hep2, hlt, hbnd⟩
      · rw [hsel, heq]
      · have := hzero _ hmem hep2
        omega

/-- Witness for `select_proper_track_tiers`: the claim's own scenario —
candidates [compilation "Live", album "Foo" by X, single "Bar" by X
with 5 tracks] for an exact title/artist match with X — where the
first tier fires on "Foo". -/
theorem select_proper_track_tiers_witness :
    ([⟨"t", [⟨"x"⟩], ⟨"compilation", [⟨"x"⟩], 10⟩, "live"⟩,
      ⟨"t", [⟨"x"⟩], ⟨"album", [⟨"x"⟩], 12⟩, "foo"⟩,
      (⟨"t", [⟨"x"⟩], ⟨"single", [⟨"x"⟩], 5⟩, "bar"⟩ : SpTrack)].filter
        (matchesRequest "t" "x")
      = ⟨"t", [⟨"x"⟩], ⟨"compilation", [⟨"x"⟩], 10⟩, "live"⟩ ::
        [⟨"t", [⟨"x"⟩], ⟨"album", [⟨"x"⟩], 12⟩, "foo"⟩,
         ⟨"t", [⟨"x"⟩], ⟨"single", [⟨"x"⟩], 5⟩, "bar"⟩])
    ∧ select_proper_track
        [⟨"t", [⟨"x"⟩], ⟨"compilation", [⟨"x"⟩], 10⟩, "live"⟩,
         ⟨"t", [⟨"x"⟩], ⟨"album", [⟨"x"⟩], 12⟩, "foo"⟩,
         ⟨"t", [⟨"x"⟩], ⟨"single", [⟨"x"⟩], 5⟩, "bar"⟩] "t" "x"
      = some ⟨"t", [⟨"x"⟩], ⟨"album", [⟨"x"⟩], 12⟩, "foo"⟩ :=
  ⟨by decide,
    (select_proper_track_tiers "t" "x"
      [⟨"t", [⟨"x"⟩], ⟨"compilation", [⟨"x"⟩], 10⟩, "live"⟩,
       ⟨"t", [⟨"x"⟩], ⟨"album", [⟨"x"⟩], 12⟩, "foo"⟩,
       ⟨"t", [⟨"x"⟩], ⟨"single", [⟨"x"⟩], 5⟩, "bar"⟩]
      ⟨"t", [⟨"x"⟩], ⟨"compilation", [⟨"x"⟩], 10⟩, "live"⟩
      [⟨"t", [⟨"x"⟩], ⟨"album", [⟨"x"⟩], 12⟩, "foo"⟩,
       ⟨"t", [⟨"x"⟩], ⟨"single", [⟨"x"⟩], 5⟩, "bar"⟩]
      (by decide)).1
      ⟨"t", [⟨"x"⟩], ⟨"album", [⟨"x"⟩], 12⟩, "foo"⟩ (by decide)⟩

/-- C4 counterexample: with filtered candidates [c0 on a
Various-Artists single with 7 tracks, c1 on the requested artist's own
release with 0 total tracks], no first-tier candidate exists and the
only release-artist-matching candidate is c1 — so the claim's second
tier demands c1 — but the source keeps `suspected_ep_idx = 0` (the
strict `> max_total` test never fires on 0) and returns c0. -/
theorem select_zero_total_cex :
    select_proper_track
      [⟨"t", [⟨"x"⟩], ⟨"single", [⟨"va"⟩], 7⟩, "uri0"⟩,
       ⟨"t", [⟨"x"⟩], ⟨"single", [⟨"x"⟩], 0⟩, "uri1"⟩] "t" "x"
      = some ⟨"t", [⟨"x"⟩], ⟨"single", [⟨"va"⟩], 7⟩, "uri0"⟩
    ∧ (∀ t ∈ [⟨"t", [⟨"x"⟩], ⟨"single", [⟨"va"⟩], 7⟩, "uri0"⟩,
        (⟨"t", [⟨"x"⟩], ⟨"single", [⟨"x"⟩], 0⟩, "uri1"⟩ : SpTrack)],
        albumTierMatch "x" t = false)
    ∧ epArtistMatch "x" ⟨"t", [⟨"x"⟩], ⟨"single", [⟨"x"⟩], 0⟩, "uri1"⟩ = true
    ∧ epArtistMatch "x" ⟨"t", [⟨"x"⟩], ⟨"single", [⟨"va"⟩], 7⟩, "uri0"⟩ = false := by
  refine ⟨by decide, by decide, by decide, by decide⟩

/-- C5: `select_proper_track` admits to disambiguation only candidates
whose track name and first-listed artist name casefold-equal the
requested title and artist exactly: any selected candidate comes from
the input list and satisfies both equalities; an empty filtered set
yields `None` for the locale; and in `detect_track` a locale whose
filtered set is empty falls through to the next locale's outcome. -/
theorem select_filter_exact (title artist : String) (results : List SpTrack) :
    (∀ s, select_proper_track results title artist = some s →
      s ∈ results ∧ casefold s.name = casefold title
        ∧ casefold (headName s.artists) = casefold artist)
    ∧ (results.filter (matchesRequest title artist) = [] →
        select_proper_track results title artist = none)
    ∧ (∀ ja en : List SpTrack, ja.filter (matchesRequest title artist) = [] →
        detect_track title artist (some ja) (some en)
          = select_proper_track en title artist) := by
  have hnil : ∀ l : List SpTrack, l.filter (matchesRequest title artist) = [] →
      select_proper_track l title artist = none := by
    intro l hl
    simp only [select_proper_track, hl]
  refine ⟨?_, hnil results, ?_⟩
  · intro s hs
    have hmemfil : s ∈ results.filter (matchesRequest title artist) := by
      rcases hfil : results.filter (matchesRequest title artist) with _ | ⟨r0, rest⟩
      · rw [hnil results hfil] at hs
        exact absurd hs (by simp)
      · simp only [select_proper_track, hfil] at hs
        injection hs with hs
        rw [← hs]
        rcases selectLoop_mem artist (r0 :: rest) r0 0 with h | h
        · rw [h]
          exact List.mem_cons_self r0 rest
        · exact h
    have hmem := (List.mem_filter.mp hmemfil).1
    have hmatch := (List.mem_filter.mp hmemfil).2
    rw [matchesRequest, Bool.and_eq_true] at hmatch
    exact ⟨hmem, beq_iff_eq.mp hmatch.1, beq_iff_eq.mp hmatch.2⟩
  · intro ja en hja
    have hsel0 : select_proper_track ([] : List SpTrack) title artist = none := by
      simp [select_proper_track]
    rcases ja with _ | ⟨t, ts⟩
    · rcases en with _ | ⟨u, us⟩
      · rw [hsel0]
        simp [detect_track]
      · simp only [detect_track]
        rcases hsel : select_proper_track (u :: us) title artist with _ | s <;>
          simp [hsel]
    · have hja2 : select_proper_track (t :: ts) title artist = none :=
        hnil (t :: ts) hja
      rcases en with _ | ⟨u, us⟩
      · rw [hsel0]
        simp [detect_track, hja2]
      · simp only [detect_track]
        rcases hsel : select_proper_track (u :: us) title artist with _ | s <;>
          simp [hsel, hja2]

/-- Witness for `select_filter_exact`: a concrete candidate differing
from the request only in letter case is selected, and its name and
first artist casefold to the requested title and artist; a locale whose
single candidate fails the filter falls through to the "en" locale. -/
theorem select_filter_exact_witness :
    (select_proper_track [⟨"FoO", [⟨"ArTiSt"⟩], ⟨"album", [⟨"ArTiSt"⟩], 9⟩, "u"⟩]
        "foo" "artist"
      = some ⟨"FoO", [⟨"ArTiSt"⟩], ⟨"album", [⟨"ArTiSt"⟩], 9⟩, "u"⟩
      → (⟨"FoO", [⟨"ArTiSt"⟩], ⟨"album", [⟨"ArTiSt"⟩], 9⟩, "u"⟩ : SpTrack) ∈
          [⟨"FoO", [⟨"ArTiSt"⟩], ⟨"album", [⟨"ArTiSt"⟩], 9⟩, "u"⟩]
        ∧ casefold "FoO" = casefold "foo"
        ∧ casefold (headName [⟨"ArTiSt"⟩]) = casefold "artist")
    ∧ ((⟨"FoO", [⟨"ArTiSt"⟩], ⟨"album", [⟨"ArTiSt"⟩], 9⟩, "u"⟩ : SpTrack) ∈
          [⟨"FoO", [⟨"ArTiSt"⟩], ⟨"album", [⟨"ArTiSt"⟩], 9⟩, "u"⟩]
        ∧ casefold "FoO" = casefold "foo"
        ∧ casefold (headName [⟨"ArTiSt"⟩]) = casefold "artist")
    ∧ detect_track "foo" "artist"
        (some [⟨"other", [⟨"ArTiSt"⟩], ⟨"album", [⟨"ArTiSt"⟩], 9⟩, "v"⟩])
        (some [⟨"FoO", [⟨"ArTiSt"⟩], ⟨"album", [⟨"ArTiSt"⟩], 9⟩, "u"⟩])
      = select_proper_track [⟨"FoO", [⟨"ArTiSt"⟩], ⟨"album", [⟨"ArTiSt"⟩], 9⟩, "u"⟩]
          "foo" "artist" :=
  ⟨(select_filter_exact "foo" "artist"
      [⟨"FoO", [⟨"ArTiSt"⟩], ⟨"album", [⟨"ArTiSt"⟩], 9⟩, "u"⟩]).1
      ⟨"FoO", [⟨"ArTiSt"⟩], ⟨"album", [⟨"ArTiSt"⟩], 9⟩, "u"⟩,
    (select_filter_exact "foo" "artist"
      [⟨"FoO", [⟨"ArTiSt"⟩], ⟨"album", [⟨"ArTiSt"⟩], 9⟩, "u"⟩]).1
      ⟨"FoO", [⟨"ArTiSt"⟩], ⟨"album", [⟨"ArTiSt"⟩], 9⟩, "u"⟩ (by decide),
    (select_filter_exact "foo" "artist"
      [⟨"FoO", [⟨"ArTiSt"⟩], ⟨"album", [⟨"ArTiSt"⟩], 9⟩, "u"⟩]).2.2
      [⟨"other", [⟨"ArTiSt"⟩], ⟨"album", [⟨"ArTiSt"⟩], 9⟩, "v"⟩]
      [⟨"FoO", [⟨"ArTiSt"⟩], ⟨"album", [⟨"ArTiSt"⟩], 9⟩, "u"⟩] (by decide)⟩

/-! ## Theorems: the history cache operations -/

/-- C6: an incremental update (`refetch=false` in `fetch_tracks_all`,
as run by `get_user_history` with `update=true`) over an existing
cached sequence whose newest event has timestamp `t` fetches with lower
bound `t + 1` seconds and persists the newly fetched newest-first
events concatenated in front of the prior cached sequence — every
pre-existing entry unchanged, in its original relative order, none
removed. -/
theorem fetch_tracks_all_incremental (env : AgpEnv) (c0 : CachedTrack)
    (rest : List CachedTrack) (t : Int)
    (huser : env.userExists = true)
    (hts : c0.dateUts = some t) :
    fetch_tracks_all env false (some (c0 :: rest))
      = ⟨Except.ok (), some (env.fetched (some (t + 1)) ++ (c0 :: rest)),
         true, true⟩ := by
  simp [fetch_tracks_all, huser, hts]

/-- Witness for `fetch_tracks_all_incremental`: a two-entry cache with
newest timestamp 100; the environment serves one new record for the
bound 101. -/
theorem fetch_tracks_all_incremental_witness :
    ((⟨true, fun s => if s = some 101 then [⟨some 200, "new"⟩] else []⟩ :
        AgpEnv).userExists = true)
    ∧ ((⟨some 100, "old0"⟩ : CachedTrack).dateUts = some 100)
    ∧ fetch_tracks_all
        ⟨true, fun s => if s = some 101 then [⟨some 200, "new"⟩] else []⟩ false
        (some (⟨some 100, "old0"⟩ :: [⟨some 50, "old1"⟩]))
      = ⟨Except.ok (),
         some ((⟨true, fun s => if s = some 101 then [⟨some 200, "new"⟩] else []⟩ :
             AgpEnv).fetched (some (100 + 1))
           ++ (⟨some 100, "old0"⟩ :: [⟨some 50, "old1"⟩])),
         true, true⟩ :=
  ⟨rfl, rfl,
    fetch_tracks_all_incremental
      ⟨true, fun s => if s = some 101 then [⟨some 200, "new"⟩] else []⟩
      ⟨some 100, "old0"⟩ [⟨some 50, "old1"⟩] 100 rfl rfl⟩

/-- C8: when the pre-fetch user-identity lookup does not confirm the
user exists (`fetch_user_info` returns `None`), `fetch_tracks_all`
returns before issuing any history fetch and performs no write: the
durable state afterwards equals the durable state before. -/
theorem fetch_tracks_all_user_missing (env : AgpEnv) (refetch : Bool)
    (cache0 : Option (List CachedTrack)) (huser : env.userExists = false) :
    fetch_tracks_all env refetch cache0
      = ⟨Except.ok (), cache0, false, false⟩ := by
  simp [fetch_tracks_all, huser]

/-- Witness for `fetch_tracks_all_user_missing` on a concrete
environment and a nonempty prior cache. -/
theorem fetch_tracks_all_user_missing_witness :
    ((⟨false, fun _ => [⟨some 7, "x"⟩]⟩ : AgpEnv).userExists = false)
    ∧ fetch_tracks_all ⟨false, fun _ => [⟨some 7, "x"⟩]⟩ false
        (some [⟨some 1, "e"⟩])
      = ⟨Except.ok (), some [⟨some 1, "e"⟩], false, false⟩ :=
  ⟨rfl, fetch_tracks_all_user_missing ⟨false, fun _ => [⟨some 7, "x"⟩]⟩ false
    (some [⟨some 1, "e"⟩]) rfl⟩

/-- C9: `get_user_history` with `update=false` (and any `refetch`)
returns the existing durable cached sequence exactly as stored, with no
fetch and no write, when a cache exists; and raises `AGPLException`
when no durable cache exists. -/
theorem get_user_history_no_update (env : AgpEnv) (refetch : Bool)
    (cache0 : Option (List CachedTrack)) :
    (∀ c, cache0 = some c →
      get_user_history env false refetch cache0
        = ⟨Except.ok c, cache0, false, false⟩)
    ∧ (cache0 = none →
      get_user_history env false refetch cache0
        = ⟨Except.error PyExn.agplException, none, false, false⟩) := by
  constructor
  · intro c hc
    subst hc
    rfl
  · intro hc
    subst hc
    rfl

/-- Witness for `get_user_history_no_update`: a one-entry cache is
returned as stored; a missing cache raises. -/
theorem get_user_history_no_update_witness :
    get_user_history ⟨true, fun _ => []⟩ false false (some [⟨some 5, "e"⟩])
      = ⟨Except.ok [⟨some 5, "e"⟩], some [⟨some 5, "e"⟩], false, false⟩
    ∧ get_user_history ⟨true, fun _ => []⟩ false false none
      = ⟨Except.error PyExn.agplException, none, false, false⟩ :=
  ⟨(get_user_history_no_update ⟨true, fun _ => []⟩ false
      (some [⟨some 5, "e"⟩])).1 [⟨some 5, "e"⟩] rfl,
    (get_user_history_no_update ⟨true, fun _ => []⟩ false none).2 rfl⟩

/-- C10: when the user's cache file exists but holds the empty JSON
array, an incremental update (`refetch=false`, after a successful user
lookup) evaluates `cache[0]` and raises `IndexError` before the history
fetch and before any write, leaving the cache file unchanged — instead
of treating the empty cache like a full fetch or like broken-cache
data. -/
theorem fetch_tracks_all_empty_cache (env : AgpEnv)
    (huser : env.userExists = true) :
    fetch_tracks_all env false (some [])
      = ⟨Except.error PyExn.indexError, some [], false, false⟩ := by
  simp [fetch_tracks_all, huser]

/-- Witness for `fetch_tracks_all_empty_cache` on a concrete
environment. -/
theorem fetch_tracks_all_empty_cache_witness :
    ((⟨true, fun _ => [⟨some 7, "x"⟩]⟩ : AgpEnv).userExists = true)
    ∧ fetch_tracks_all ⟨true, fun _ => [⟨some 7, "x"⟩]⟩ false (some [])
      = ⟨Except.error PyExn.indexError, some [], false, false⟩ :=
  ⟨rfl, fetch_tracks_all_empty_cache ⟨true, fun _ => [⟨some 7, "x"⟩]⟩ rfl⟩

end AGP
